import Mathlib

/-!
Shallow embedding of the crates.io index generation module
(`src/index.rs`: `get_index_data` and `index_metadata`) together with the
storage, wire-encoder and anomaly-sink collaborators it consumes.

Modelling conventions:
* database timestamps are `Int`, database ids are `Int`;
* the storage layer (diesel queries) is a record of fallible query
  functions (`Conn`), a read error being an arbitrary message string;
* Rust `String` ordering (byte-wise on UTF-8) is modelled as the
  lexicographic order on the code-point list `String.data`, which orders
  identically on Unicode strings;
* Rust's stable sorts (`Vec::sort`, `sort_by_cached_key`) are modelled by
  `List.insertionSort`, which is stable and agrees extensionally with any
  stable sort under the same total preorder.
-/

deriving instance DecidableEq for Except

namespace CratesioIndexing

/-- Feature mapping of a version: feature name to list of activation strings
(the decoded form of the JSON `features` column, a `BTreeMap<String, Vec<String>>`). -/
abbrev FeaturesMap := List (String × List String)

/-- Model of `crates.io`'s `Crate` row, restricted to the columns
`index_metadata` reads. -/
structure Crate where
  id : Int
  name : String
deriving DecidableEq, Repr

/-- Model of the `Version` row, restricted to the columns `index_metadata`
reads.  The `features` field models the decoded result of the
`Version::features()` accessor: `none` stands for a raw feature payload that
is absent or fails to decode, `some m` for a payload decoding to `m`. -/
structure Version where
  id : Int
  num : String
  created_at : Int
  checksum : String
  yanked : Bool
  links : Option String
  rust_version : Option String
  features : Option FeaturesMap
deriving DecidableEq, Repr

/-- Model of the `Dependency` row, restricted to the columns used by the
transform.  `kind` is the numeric encoding of normal/build/dev. -/
structure Dependency where
  version_id : Int
  req : String
  features : List String
  optional : Bool
  default_features : Bool
  kind : Nat
  explicit_name : Option String
  target : Option String
deriving DecidableEq, Repr

/-- Model of `crates_io_index::Dependency`, the dependency entry of an output
index record, with the fields in the order the transform fills them. -/
structure IndexDependency where
  name : String
  req : String
  features : List String
  optional : Bool
  default_features : Bool
  kind : Option Nat
  package : Option String
  target : Option String
deriving DecidableEq, Repr

/-- Model of `crates_io_index::Crate`, the output index record for one
version. -/
structure IndexCrate where
  name : String
  vers : String
  deps : List IndexDependency
  cksum : String
  features : FeaturesMap
  features2 : Option FeaturesMap
  yanked : Option Bool
  links : Option String
  rust_version : Option String
  v : Option Nat
deriving DecidableEq, Repr

/-! ## Model of the external `semver` crate

`index_metadata` sorts versions by `semver::Version::parse(..).ok()`.  The
`semver` crate is an external dependency, modelled here after the semver 2.0
specification it implements: a version is `major.minor.patch` with optional
`-prerelease` and `+build` suffixes; precedence compares the numeric triple,
then the prerelease identifiers (a release sorts above any prerelease;
numeric identifiers sort below alphanumeric ones and numerically among
themselves), with build metadata as a final tie-break. -/

/-- Parsed semantic version. -/
structure SemVer where
  major : Nat
  minor : Nat
  patch : Nat
  pre : List String
  build : List String
deriving DecidableEq, Repr

/-- Numeric value of a digit string. -/
def digitsToNat (cs : List Char) : Nat :=
  cs.foldl (fun n c => n * 10 + (c.toNat - 48)) 0

/-- Check for a nonempty all-digit character list. -/
def isDigits (cs : List Char) : Bool :=
  !cs.isEmpty && cs.all (fun c => c.isDigit)

/-- Leading-zero check: numeric components may not have leading zeros. -/
def noLeadZero (cs : List Char) : Bool :=
  cs.length == 1 || cs.head? != some '0'

/-- Parse a numeric version component (nonempty digits, no leading zero). -/
def parseNumericPart (cs : List Char) : Option Nat :=
  if isDigits cs && noLeadZero cs then some (digitsToNat cs) else none

/-- Validity of a prerelease identifier: nonempty, alphanumeric or hyphen,
and no leading zero when fully numeric. -/
def validPreIdent (cs : List Char) : Bool :=
  !cs.isEmpty && cs.all (fun c => c.isAlphanum || c == '-') &&
    (!cs.all (fun c => c.isDigit) || noLeadZero cs)

/-- Validity of a build-metadata identifier: nonempty, alphanumeric or
hyphen. -/
def validBuildIdent (cs : List Char) : Bool :=
  !cs.isEmpty && cs.all (fun c => c.isAlphanum || c == '-')

/-- Split a character list on a separator character. -/
def splitOnChar (sep : Char) : List Char → List (List Char)
  | [] => [[]]
  | c :: cs =>
    let rest := splitOnChar sep cs
    if c == sep then [] :: rest
    else
      match rest with
      | [] => [[c]]
      | r :: rs => (c :: r) :: rs

/-- Split a character list at the first occurrence of a separator, returning
the part before it and, when the separator occurs, the part after it. -/
def breakAtChar (sep : Char) : List Char → List Char × Option (List Char)
  | [] => ([], none)
  | c :: cs =>
    if c == sep then ([], some cs)
    else
      let r := breakAtChar sep cs
      (c :: r.1, r.2)

/-- Parse a dot-separated identifier suffix with the given per-identifier
validity check. -/
def parseIdents (valid : List Char → Bool) (cs : List Char) :
    Option (List String) :=
  (splitOnChar '.' cs).mapM
    (fun id => if valid id then some (String.mk id) else none)

/-- Model of `semver::Version::parse(..).ok()`: `major.minor.patch` core with
optional `-prerelease` and `+build` suffixes, `none` on malformed input. -/
def semverParse (s : String) : Option SemVer :=
  let b := breakAtChar '+' s.data
  let p := breakAtChar '-' b.1
  match splitOnChar '.' p.1 with
  | [ma, mi, pa] => do
    let major ← parseNumericPart ma
    let minor ← parseNumericPart mi
    let patch ← parseNumericPart pa
    let pre ←
      match p.2 with
      | none => some []
      | some cs => parseIdents validPreIdent cs
    let build ←
      match b.2 with
      | none => some []
      | some cs => parseIdents validBuildIdent cs
    some { major, minor, patch, pre, build }
  | _ => none

/-! ## Sort keys

The comparisons the Rust code performs through derived `Ord` instances are
modelled by injective key functions into lexicographic orders built from
Mathlib's `Lex`, `WithBot`, `WithTop` and `Sum.Lex` instances, which place
`none`/`⊥` first and `⊤` last exactly as Rust's `Option` ordering places
`None` first. -/

/-- Embed an `Option` into `WithBot`, keeping `none` as the bottom element to
mirror Rust's `Option` ordering where `None < Some _`. -/
def toWithBot {α : Type} (o : Option α) : WithBot α :=
  match o with
  | none => ⊥
  | some a => WithBot.some a

/-- Key of one prerelease or build identifier: numeric identifiers sort below
alphanumeric ones and numerically among themselves, alphanumeric ones sort in
code-point order. -/
def identKey (s : String) : Nat ⊕ₗ List Char :=
  if s.data ≠ [] ∧ s.data.all (fun c => c.isDigit) then
    toLex (Sum.inl (digitsToNat s.data))
  else
    toLex (Sum.inr s.data)

/-- Key of a prerelease identifier list: an empty prerelease (a release)
sorts above every nonempty prerelease. -/
def preKey (pre : List String) : WithTop (List (Nat ⊕ₗ List Char)) :=
  match pre with
  | [] => ⊤
  | ids => WithTop.some (ids.map identKey)

/-- Precedence key of a parsed semantic version. -/
def semverKey (v : SemVer) :
    Lex (Nat × Lex (Nat × Lex (Nat ×
      Lex (WithTop (List (Nat ⊕ₗ List Char)) × List (Nat ⊕ₗ List Char))))) :=
  toLex (v.major, toLex (v.minor, toLex (v.patch,
    toLex (preKey v.pre, v.build.map identKey))))

/-- Sort key of the version sort at `index.rs:51`:
`(k.created_at, semver::Version::parse(&k.num).ok())`, with the `Option`
ordering placing an unparsable version string below any parsed one. -/
def versionSortKey (v : Version) :
    Lex (Int × WithBot (Lex (Nat × Lex (Nat × Lex (Nat ×
      Lex (WithTop (List (Nat ⊕ₗ List Char)) × List (Nat ⊕ₗ List Char))))))) :=
  toLex (v.created_at, toWithBot ((semverParse v.num).map semverKey))

/-- Version ordering used by `versions.sort_by_cached_key(..)`. -/
def versionLE (a b : Version) : Prop :=
  versionSortKey a ≤ versionSortKey b

instance : DecidableRel versionLE :=
  fun a b => inferInstanceAs (Decidable (versionSortKey a ≤ versionSortKey b))

instance : IsTotal Version versionLE :=
  ⟨fun a b => le_total (versionSortKey a) (versionSortKey b)⟩

instance : IsTrans Version versionLE :=
  ⟨fun _ _ _ h h' => le_trans h h'⟩

/-- Stable sort of the version list, modelling
`versions.sort_by_cached_key(|k| (k.created_at, semver::Version::parse(&k.num).ok()))`. -/
def sortVersions (vs : List Version) : List Version :=
  List.insertionSort versionLE vs

/-- Field-wise sort key of an output dependency: all eight attributes, in
declaration order, compared lexicographically with Rust's `Option` ordering
on the optional ones. -/
def depKey (d : IndexDependency) :
    Lex (List Char × Lex (List Char × Lex (List (List Char) ×
      Lex (Bool × Lex (Bool × Lex (WithBot Nat ×
        Lex (WithBot (List Char) × WithBot (List Char)))))))) :=
  toLex (d.name.data, toLex (d.req.data, toLex (d.features.map String.data,
    toLex (d.optional, toLex (d.default_features, toLex (toWithBot d.kind,
      toLex (toWithBot (d.package.map String.data),
        toWithBot (d.target.map String.data))))))))

/-- Dependency ordering used by `deps.sort()` (the derived `Ord` of
`crates_io_index::Dependency`). -/
def depLE (a b : IndexDependency) : Prop :=
  depKey a ≤ depKey b

instance : DecidableRel depLE :=
  fun a b => inferInstanceAs (Decidable (depKey a ≤ depKey b))

instance : IsTotal IndexDependency depLE :=
  ⟨fun a b => le_total (depKey a) (depKey b)⟩

instance : IsTrans IndexDependency depLE :=
  ⟨fun _ _ _ h h' => le_trans h h'⟩

/-- Stable sort of the transformed dependency list, modelling `deps.sort()`. -/
def sortDeps (ds : List IndexDependency) : List IndexDependency :=
  List.insertionSort depLE ds

/-! ## The transform (`index_metadata`) -/

/-- Check whether a character list starts with the given pattern, modelling
`str::starts_with`. -/
def charsLeadWith : List Char → List Char → Bool
  | [], _ => true
  | _ :: _, [] => false
  | a :: asx, b :: bs => a == b && charsLeadWith asx bs

/-- Check whether a character list contains the given pattern as a
contiguous run, modelling `str::contains`. -/
def charsContain (pat : List Char) : List Char → Bool
  | [] => charsLeadWith pat []
  | c :: cs => charsLeadWith pat (c :: cs) || charsContain pat cs

/-- Modelled from the spec: `crates_io_index::features::split_features` is
repository code outside the sources at hand.  Per the spec's
feature-syntax-split rule it partitions the raw mapping into a
legacy-compatible subset and an extended-only subset, an entry being
extended when one of its activation strings references optional-dependency
activation (a `dep:` marker) or weak namespaced activation (a `?/` marker). -/
def isExtendedFeatureValue (s : String) : Bool :=
  charsLeadWith ("dep:".data) s.data || charsContain ("?/".data) s.data

/-- Check whether an entry of the raw feature mapping uses the extended
syntax in one of its activation strings. -/
def featureUsesExtendedSyntax (e : String × List String) : Bool :=
  e.2.any isExtendedFeatureValue

/-- Modelled from the spec: the partition of the raw feature mapping into
the legacy subset (first) and the extended subset (second). -/
def split_features (m : FeaturesMap) : FeaturesMap × FeaturesMap :=
  m.partition (fun e => !(featureUsesExtendedSyntax e))

/-- Transform of one loaded dependency row (paired with the registered name
of its target package obtained from the join) into an output dependency,
from `index.rs:66-87`: an explicit rename becomes the display name and moves
the registered name into the `package` field. -/
def toIndexDep (dep : Dependency) (name : String) : IndexDependency :=
  let np : String × Option String :=
    match dep.explicit_name with
    | some explicit_name => (explicit_name, some name)
    | none => (name, none)
  { name := np.1
    req := dep.req
    features := dep.features
    optional := dep.optional
    default_features := dep.default_features
    kind := some dep.kind
    package := np.2
    target := dep.target }

/-- Transform of one version together with its grouped dependency rows into
its output index record, from the closure at `index.rs:63-114`. -/
def transformVersion (krateName : String) (version : Version)
    (deps : List (Dependency × String)) : IndexCrate :=
  let deps := sortDeps (deps.map (fun p => toIndexDep p.1 p.2))
  let fs := split_features ((version.features).getD [])
  let f2v : Option FeaturesMap × Option Nat :=
    if fs.2.isEmpty then (none, none) else (some fs.2, some 2)
  { name := krateName
    vers := version.num
    deps := deps
    cksum := version.checksum
    features := fs.1
    features2 := f2v.1
    yanked := some version.yanked
    links := version.links
    rust_version := version.rust_version
    v := f2v.2 }

/-- Storage read error (the diesel error), carried as a message. -/
abbrev QueryError := String

/-- Storage collaborator: the three bulk reads `get_index_data` and
`index_metadata` perform, each fallible.  `versionDependencies` returns each
dependency row joined with its target package's registered name
(`crates::name`), as in `index.rs:53-56`. -/
structure Conn where
  byExactName : String → Except QueryError (Option Crate)
  allVersions : Crate → Except QueryError (List Version)
  versionDependencies : List Version → Except QueryError (List (Dependency × String))

/-- Grouping of loaded dependency rows by their owning version, modelling
diesel's `grouped_by` (`index.rs:58`): one bucket per version, in version
order, each bucket keeping load order. -/
def groupedBy (deps : List (Dependency × String)) (versions : List Version) :
    List (List (Dependency × String)) :=
  versions.map (fun v => deps.filter (fun p => p.1.version_id == v.id))

/-- Embedding of `index_metadata` (`index.rs:42-117`): load the versions,
sort them by creation timestamp then parsed semver, load and group the
dependency rows, and map each version with its bucket through the
transform. -/
def index_metadata (krate : Crate) (conn : Conn) :
    Except QueryError (List IndexCrate) :=
  match conn.allVersions krate with
  | .error e => .error e
  | .ok versions =>
    let versions := sortVersions versions
    match conn.versionDependencies versions with
    | .error e => .error e
    | .ok deps =>
      let grouped := groupedBy deps versions
      .ok ((versions.zip grouped).map (fun p => transformVersion krate.name p.1 p.2))

/-- Severity levels of the anomaly sink (sentry). -/
inductive Level where
  | debug
  | info
  | warning
  | error
  | fatal
deriving DecidableEq, Repr

/-- Wire-encoder collaborator: `crates_io_index::write_crates` consumed as an
opaque fallible encoding into bytes, plus the byte-to-text decoding step
(`String::from_utf8`), which fails on non-text bytes. -/
structure WireEncoder where
  writeCrates : List IndexCrate → Except String (List Nat)
  fromUtf8 : List Nat → Option String

/-- Failure taxonomy of `get_index_data`: a propagated storage error, a
wire-encoder failure, or a text-decoding failure. -/
inductive IndexDataError where
  | query (e : QueryError)
  | serialization (e : String)
  | utf8Decode
deriving DecidableEq, Repr

/-- Embedding of `get_index_data` (`index.rs:10-39`).  The result pairs the
caller-visible outcome with the list of messages emitted to the anomaly
sink during the call. -/
def get_index_data (enc : WireEncoder) (name : String) (conn : Conn) :
    Except IndexDataError (Option String) × List (Level × String) :=
  match conn.byExactName name with
  | .error e => (.error (.query e), [])
  | .ok none => (.ok none, [])
  | .ok (some krate) =>
    match index_metadata krate conn with
    | .error e => (.error (.query e), [])
    | .ok crates =>
      if crates.isEmpty then
        (.ok none, [(Level.warning, "Crate `" ++ name ++ "` has no versions left")])
      else
        match enc.writeCrates crates with
        | .error e => (.error (.serialization e), [])
        | .ok bytes =>
          match enc.fromUtf8 bytes with
          | none => (.error .utf8Decode, [])
          | some str => (.ok (some str), [])

/-! ## Structural lemmas -/

/-- Mapping a function over the zip of a list with its own image collapses to
a single map. -/
theorem zip_map_self {α β γ : Type} (f : α → β) (g : α × β → γ) (l : List α) :
    (l.zip (l.map f)).map g = l.map (fun a => g (a, f a)) := by
  induction l with
  | nil => rfl
  | cons a l ih => simp only [List.map_cons, List.zip_cons_cons, ih]

/-- Reduction of `index_metadata` when both storage reads succeed. -/
theorem index_metadata_eq_of (krate : Crate) (conn : Conn) (vs : List Version)
    (deps : List (Dependency × String))
    (hv : conn.allVersions krate = .ok vs)
    (hd : conn.versionDependencies (sortVersions vs) = .ok deps) :
    index_metadata krate conn =
      .ok ((sortVersions vs).map (fun v =>
        transformVersion krate.name v
          (deps.filter (fun p => p.1.version_id == v.id)))) := by
  unfold index_metadata
  rw [hv]
  dsimp only
  rw [hd]
  simp only [groupedBy, zip_map_self]

/-- Sortedness of the version sort. -/
theorem sortVersions_sorted (vs : List Version) :
    List.Pairwise versionLE (sortVersions vs) :=
  List.sorted_insertionSort versionLE vs

/-- Permutation property of the version sort. -/
theorem sortVersions_perm (vs : List Version) : (sortVersions vs).Perm vs :=
  List.perm_insertionSort versionLE vs

/-- Sortedness of the dependency sort. -/
theorem sortDeps_sorted (ds : List IndexDependency) :
    List.Pairwise depLE (sortDeps ds) :=
  List.sorted_insertionSort depLE ds

/-- Permutation property of the dependency sort. -/
theorem sortDeps_perm (ds : List IndexDependency) : (sortDeps ds).Perm ds :=
  List.perm_insertionSort depLE ds

/-- Unfolding of the version order as primary timestamp, secondary parsed
semver key. -/
theorem versionLE_iff (a b : Version) :
    versionLE a b ↔ a.created_at < b.created_at ∨
      (a.created_at = b.created_at ∧
        toWithBot ((semverParse a.num).map semverKey) ≤
          toWithBot ((semverParse b.num).map semverKey)) := by
  simp only [versionLE, versionSortKey]
  exact Prod.Lex.le_iff _ _

/-! ## Witness fixtures: the demo scenario of the spec (section 8), extended
with a second dependency and an unparsable version. -/

/-- Demo package. -/
def wKrate : Crate := ⟨1, "demo"⟩

/-- Demo version 0.1.0 with no dependencies and no features. -/
def wV1 : Version := ⟨10, "0.1.0", 100, "c1", false, none, none, some []⟩

/-- Demo version 0.2.0, yanked, with one legacy and one extended feature
entry, created after 0.1.0. -/
def wV2 : Version :=
  ⟨11, "0.2.0", 200, "c2", true, none, none,
    some [("std", ["dep:serde"]), ("plain", ["x"])]⟩

/-- Demo version with an unparsable version string and an undecodable
feature payload, sharing its timestamp with 0.1.0. -/
def wVbad : Version := ⟨12, "garbage", 100, "c3", false, none, none, none⟩

/-- Renamed dependency of version 0.2.0 on package left-pad. -/
def wDep : Dependency := ⟨11, "^1", [], false, true, 0, some "pad", none⟩

/-- Plain dependency of version 0.2.0 on package serde. -/
def wDepPlain : Dependency := ⟨11, "^2", [], false, true, 0, none, none⟩

/-- Demo storage collaborator. -/
def wConn : Conn :=
  { byExactName := fun n => if n = "demo" then .ok (some wKrate) else .ok none
    allVersions := fun _ => .ok [wV2, wV1, wVbad]
    versionDependencies := fun _ => .ok [(wDep, "left-pad"), (wDepPlain, "serde")] }

/-- Demo wire encoder: one byte per record, decoded to one character per
byte. -/
def wEnc : WireEncoder :=
  { writeCrates := fun cs => .ok (cs.map (fun _ => 10))
    fromUtf8 := fun bs => some (String.mk (bs.map (fun _ => 'x'))) }

/-- Output of `index_metadata` on the demo scenario. -/
def wOut : List IndexCrate :=
  (sortVersions [wV2, wV1, wVbad]).map (fun v =>
    transformVersion wKrate.name v
      ([(wDep, "left-pad"), (wDepPlain, "serde")].filter
        (fun p => p.1.version_id == v.id)))

/-- Inversion of a successful `index_metadata` run: both storage reads
succeeded and the output is the sorted version list mapped through the
transform with its grouped dependency bucket. -/
theorem index_metadata_ok_inv (krate : Crate) (conn : Conn)
    (out : List IndexCrate) (h : index_metadata krate conn = .ok out) :
    ∃ vs deps, conn.allVersions krate = .ok vs ∧
      conn.versionDependencies (sortVersions vs) = .ok deps ∧
      out = (sortVersions vs).map (fun v =>
        transformVersion krate.name v
          (deps.filter (fun p => p.1.version_id == v.id))) := by
  unfold index_metadata at h
  cases hv : conn.allVersions krate with
  | error e => rw [hv] at h; exact Except.noConfusion h
  | ok vs =>
    rw [hv] at h
    dsimp only at h
    cases hd : conn.versionDependencies (sortVersions vs) with
    | error e => rw [hd] at h; exact Except.noConfusion h
    | ok deps =>
      rw [hd] at h
      refine ⟨vs, deps, rfl, hd, ?_⟩
      injection h with h
      rw [← h]
      simp only [groupedBy, zip_map_self]

/-- Provenance of an output dependency: every entry of a transformed
record's dependency list is the image under `toIndexDep` of one of the
supplied dependency rows. -/
theorem mem_transformVersion_deps {krateName : String} {v : Version}
    {deps : List (Dependency × String)} {d : IndexDependency}
    (h : d ∈ (transformVersion krateName v deps).deps) :
    ∃ p ∈ deps, d = toIndexDep p.1 p.2 := by
  have h' : d ∈ sortDeps (deps.map (fun p => toIndexDep p.1 p.2)) := h
  have h'' := (sortDeps_perm (deps.map (fun p => toIndexDep p.1 p.2))).mem_iff.mp h'
  rcases List.mem_map.mp h'' with ⟨p, hp, hd⟩
  exact ⟨p, hp, hd.symm⟩

/-! ## Claims -/

/-- C1: when the storage reads succeed, `index_metadata` succeeds (in
particular no version string failing to parse causes a failure) and its
records follow the sorted version order, which is sorted under `versionLE`;
`versionLE` orders primarily by creation timestamp ascending, for equal
timestamps exactly by the parsed-semver key with `none` at the bottom, so an
unparsable version sorts before (at or below) any version at the same
timestamp. -/
theorem index_metadata_ordering (krate : Crate) (conn : Conn)
    (vs : List Version) (deps : List (Dependency × String))
    (hv : conn.allVersions krate = .ok vs)
    (hd : conn.versionDependencies (sortVersions vs) = .ok deps) :
    ∃ out, index_metadata krate conn = .ok out ∧
      out.map IndexCrate.vers = (sortVersions vs).map Version.num ∧
      List.Pairwise versionLE (sortVersions vs) ∧
      (∀ a b : Version, versionLE a b → a.created_at ≤ b.created_at) ∧
      (∀ a b : Version, a.created_at = b.created_at →
        (versionLE a b ↔
          toWithBot ((semverParse a.num).map semverKey) ≤
            toWithBot ((semverParse b.num).map semverKey))) ∧
      (∀ a b : Version, a.created_at = b.created_at →
        semverParse a.num = none → versionLE a b) ∧
      (∀ a b : Version, a.created_at = b.created_at →
        semverParse a.num = none → ∀ sv, semverParse b.num = some sv →
          versionLE a b ∧ ¬versionLE b a) := by
  refine ⟨_, index_metadata_eq_of krate conn vs deps hv hd, ?_, ?_, ?_, ?_, ?_, ?_⟩
  · rw [List.map_map]
    rfl
  · exact sortVersions_sorted vs
  · intro a b h
    rcases (versionLE_iff a b).mp h with h' | ⟨h', _⟩
    · exact le_of_lt h'
    · exact le_of_eq h'
  · intro a b hts
    rw [versionLE_iff]
    constructor
    · rintro (h | ⟨-, h⟩)
      · exact absurd hts (ne_of_lt h)
      · exact h
    · intro h
      exact Or.inr ⟨hts, h⟩
  · intro a b hts hnone
    rw [versionLE_iff, hnone]
    exact Or.inr ⟨hts, bot_le⟩
  · intro a b hts hnone sv hsome
    constructor
    · rw [versionLE_iff, hnone]
      exact Or.inr ⟨hts, bot_le⟩
    · rw [versionLE_iff, hnone, hsome]
      rintro (hlt | ⟨-, hle⟩)
      · exact absurd hts.symm (ne_of_lt hlt)
      · exact absurd hle (by simp [toWithBot])

/-- Witness for C1: the demo scenario, containing an unparsable version
sharing its timestamp with a parsable one. -/
theorem index_metadata_ordering_witness :
    ∃ out, index_metadata wKrate wConn = .ok out ∧
      out.map IndexCrate.vers = (sortVersions [wV2, wV1, wVbad]).map Version.num ∧
      List.Pairwise versionLE (sortVersions [wV2, wV1, wVbad]) ∧
      (∀ a b : Version, versionLE a b → a.created_at ≤ b.created_at) ∧
      (∀ a b : Version, a.created_at = b.created_at →
        (versionLE a b ↔
          toWithBot ((semverParse a.num).map semverKey) ≤
            toWithBot ((semverParse b.num).map semverKey))) ∧
      (∀ a b : Version, a.created_at = b.created_at →
        semverParse a.num = none → versionLE a b) ∧
      (∀ a b : Version, a.created_at = b.created_at →
        semverParse a.num = none → ∀ sv, semverParse b.num = some sv →
          versionLE a b ∧ ¬versionLE b a) :=
  index_metadata_ordering wKrate wConn [wV2, wV1, wVbad]
    [(wDep, "left-pad"), (wDepPlain, "serde")] rfl rfl

/-- C2: every dependency of every transformed version is the image of a
loaded dependency row; a row with an explicit rename yields display name
equal to the rename and the `package` field set to the registered
target-package name from the join, and a row without a rename yields the
registered name as display name and no `package` field. -/
theorem dep_rename_rule (krate : Crate) (conn : Conn) (out : List IndexCrate)
    (vs : List Version) (depsLoaded : List (Dependency × String))
    (hv : conn.allVersions krate = .ok vs)
    (hd : conn.versionDependencies (sortVersions vs) = .ok depsLoaded)
    (h : index_metadata krate conn = .ok out) :
    ∀ rec ∈ out, ∀ d ∈ rec.deps, ∃ p ∈ depsLoaded,
      d = toIndexDep p.1 p.2 ∧
      (∀ r, p.1.explicit_name = some r → d.name = r ∧ d.package = some p.2) ∧
      (p.1.explicit_name = none → d.name = p.2 ∧ d.package = none) := by
  rw [index_metadata_eq_of krate conn vs depsLoaded hv hd] at h
  injection h with h
  subst h
  intro rec hrec d hdm
  rcases List.mem_map.mp hrec with ⟨v, _, rfl⟩
  rcases mem_transformVersion_deps hdm with ⟨p, hp, rfl⟩
  refine ⟨p, List.mem_of_mem_filter hp, rfl, ?_, ?_⟩
  · intro r hr
    simp [toIndexDep, hr]
  · intro hr
    simp [toIndexDep, hr]

/-- Record of the demo version 0.2.0 in `wOut`. -/
def wRec2 : IndexCrate :=
  transformVersion wKrate.name wV2 [(wDep, "left-pad"), (wDepPlain, "serde")]

/-- Witness for C2: the renamed dependency of the demo version 0.2.0. -/
theorem dep_rename_rule_witness :
    ∃ p ∈ [(wDep, "left-pad"), (wDepPlain, "serde")],
      toIndexDep wDep "left-pad" = toIndexDep p.1 p.2 ∧
      (∀ r, p.1.explicit_name = some r →
        (toIndexDep wDep "left-pad").name = r ∧
        (toIndexDep wDep "left-pad").package = some p.2) ∧
      (p.1.explicit_name = none →
        (toIndexDep wDep "left-pad").name = p.2 ∧
        (toIndexDep wDep "left-pad").package = none) :=
  dep_rename_rule wKrate wConn wOut [wV2, wV1, wVbad]
    [(wDep, "left-pad"), (wDepPlain, "serde")] rfl rfl rfl
    wRec2 (by decide) (toIndexDep wDep "left-pad") (by decide)

/-- C3: every output record's feature data is the partition of the raw
feature mapping of its version into the legacy subset (kept in the legacy
field) and the extended subset; an empty extended subset yields no
extended-feature field and no format-version tag, a non-empty one yields
that exact non-empty subset and the tag value 2. -/
theorem features_split_rule (krate : Crate) (conn : Conn)
    (out : List IndexCrate) (vs : List Version)
    (depsLoaded : List (Dependency × String))
    (hv : conn.allVersions krate = .ok vs)
    (hd : conn.versionDependencies (sortVersions vs) = .ok depsLoaded)
    (h : index_metadata krate conn = .ok out) :
    ∀ rec ∈ out, ∃ v ∈ vs,
      split_features ((v.features).getD []) =
        (((v.features).getD []).filter (fun e => !(featureUsesExtendedSyntax e)),
         ((v.features).getD []).filter (fun e => featureUsesExtendedSyntax e)) ∧
      rec.features = (split_features ((v.features).getD [])).1 ∧
      ((split_features ((v.features).getD [])).2 = [] →
        rec.features2 = none ∧ rec.v = none) ∧
      ((split_features ((v.features).getD [])).2 ≠ [] →
        rec.features2 = some (split_features ((v.features).getD [])).2 ∧
          rec.v = some 2) := by
  rw [index_metadata_eq_of krate conn vs depsLoaded hv hd] at h
  injection h with h
  subst h
  intro rec hrec
  rcases List.mem_map.mp hrec with ⟨v, hv', rfl⟩
  refine ⟨v, (sortVersions_perm vs).mem_iff.mp hv', ?_, ?_, ?_, ?_⟩
  · simp only [split_features, List.partition_eq_filter_filter, Prod.mk.injEq,
      true_and]
    apply List.filter_congr
    intro e _
    simp [Function.comp]
  · cases hfs : (split_features ((v.features).getD [])).2 with
    | nil => simp [transformVersion, hfs]
    | cons a l => simp [transformVersion, hfs]
  · intro hfs
    simp [transformVersion, hfs]
  · intro hfs
    cases hfs' : (split_features ((v.features).getD [])).2 with
    | nil => exact absurd hfs' hfs
    | cons a l => simp [transformVersion, hfs']

/-- Witness for C3: the record of the demo version 0.2.0, which carries one
legacy and one extended feature entry. -/
theorem features_split_rule_witness :
    ∃ v ∈ [wV2, wV1, wVbad],
      split_features ((v.features).getD []) =
        (((v.features).getD []).filter (fun e => !(featureUsesExtendedSyntax e)),
         ((v.features).getD []).filter (fun e => featureUsesExtendedSyntax e)) ∧
      wRec2.features = (split_features ((v.features).getD [])).1 ∧
      ((split_features ((v.features).getD [])).2 = [] →
        wRec2.features2 = none ∧ wRec2.v = none) ∧
      ((split_features ((v.features).getD [])).2 ≠ [] →
        wRec2.features2 = some (split_features ((v.features).getD [])).2 ∧
          wRec2.v = some 2) :=
  features_split_rule wKrate wConn wOut [wV2, wV1, wVbad]
    [(wDep, "left-pad"), (wDepPlain, "serde")] rfl rfl rfl wRec2 (by decide)

/-- C5: when the storage reads succeed, `index_metadata` produces exactly
one record per stored version: the length matches and the multiset of
version strings of the records equals the multiset of stored version
strings, so no version is omitted and none is duplicated. -/
theorem one_record_per_version (krate : Crate) (conn : Conn)
    (vs : List Version) (deps : List (Dependency × String))
    (hv : conn.allVersions krate = .ok vs)
    (hd : conn.versionDependencies (sortVersions vs) = .ok deps) :
    ∃ out, index_metadata krate conn = .ok out ∧
      out.length = vs.length ∧
      (out.map IndexCrate.vers).Perm (vs.map Version.num) := by
  refine ⟨_, index_metadata_eq_of krate conn vs deps hv hd, ?_, ?_⟩
  · rw [List.length_map, sortVersions, List.length_insertionSort]
  · rw [List.map_map]
    exact (sortVersions_perm vs).map Version.num
/-- Witness for C5: the demo scenario with three versions. -/
theorem one_record_per_version_witness :
    ∃ out, index_metadata wKrate wConn = .ok out ∧
      out.length = ([wV2, wV1, wVbad] : List Version).length ∧
      (out.map IndexCrate.vers).Perm ([wV2, wV1, wVbad].map Version.num) :=
  one_record_per_version wKrate wConn [wV2, wV1, wVbad]
    [(wDep, "left-pad"), (wDepPlain, "serde")] rfl rfl

/-- Injectivity of `String.data`. -/
theorem strData_inj : Function.Injective String.data := by
  intro a b h
  cases a
  cases b
  exact congrArg String.mk h

/-- Injectivity of the `Option`-to-`WithBot` embedding. -/
theorem toWithBot_inj {α : Type} : Function.Injective (toWithBot (α := α)) := by
  intro a b h
  cases a <;> cases b
  · rfl
  · exact Option.noConfusion h
  · exact Option.noConfusion h
  · exact congrArg Option.some (Option.some.inj h)

/-- Injectivity of the field-wise dependency sort key. -/
theorem depKey_inj : Function.Injective depKey := by
  intro a b h
  obtain ⟨n1, r1, f1, o1, df1, k1, p1, t1⟩ := a
  obtain ⟨n2, r2, f2, o2, df2, k2, p2, t2⟩ := b
  simp only [depKey, toLex_inj, Prod.mk.injEq] at h
  obtain ⟨hn, hr, hf, ho, hdf, hk, hp, ht⟩ := h
  cases strData_inj hn
  cases strData_inj hr
  cases List.map_injective_iff.mpr strData_inj hf
  cases ho
  cases hdf
  cases toWithBot_inj hk
  cases Option.map_injective strData_inj (toWithBot_inj hp)
  cases Option.map_injective strData_inj (toWithBot_inj ht)
  rfl

/-- C6: every record's dependency list is sorted under `depLE`, the
field-wise order pulled back from the lexicographic order on all eight
dependency attributes, which is total, transitive and antisymmetric; and the
transform is deterministic: any storage collaborator answering the two reads
identically produces the identical output. -/
theorem deps_sorted_and_deterministic (krate : Crate) (conn : Conn)
    (out : List IndexCrate) (h : index_metadata krate conn = .ok out) :
    (∀ rec ∈ out, List.Pairwise depLE rec.deps) ∧
    (∀ a b : IndexDependency, depLE a b ∨ depLE b a) ∧
    (∀ a b c : IndexDependency, depLE a b → depLE b c → depLE a c) ∧
    (∀ a b : IndexDependency, depLE a b → depLE b a → a = b) ∧
    (∀ conn' : Conn,
      (∀ k, conn'.allVersions k = conn.allVersions k) →
      (∀ l, conn'.versionDependencies l = conn.versionDependencies l) →
      index_metadata krate conn' = .ok out) := by
  obtain ⟨vs, deps, hv, hd, hout⟩ := index_metadata_ok_inv krate conn out h
  refine ⟨?_, ?_, ?_, ?_, ?_⟩
  · intro rec hrec
    subst hout
    rcases List.mem_map.mp hrec with ⟨v, _, rfl⟩
    exact sortDeps_sorted _
  · intro a b
    exact le_total (depKey a) (depKey b)
  · intro a b c hab hbc
    exact le_trans hab hbc
  · intro a b hab hba
    exact depKey_inj (le_antisymm hab hba)
  · intro conn' h1 h2
    rw [← h]
    unfold index_metadata
    simp only [h1, h2]

/-- Witness for C6: the demo scenario, whose version 0.2.0 carries two
dependencies. -/
theorem deps_sorted_and_deterministic_witness :
    (∀ rec ∈ wOut, List.Pairwise depLE rec.deps) ∧
    (∀ a b : IndexDependency, depLE a b ∨ depLE b a) ∧
    (∀ a b c : IndexDependency, depLE a b → depLE b c → depLE a c) ∧
    (∀ a b : IndexDependency, depLE a b → depLE b a → a = b) ∧
    (∀ conn' : Conn,
      (∀ k, conn'.allVersions k = wConn.allVersions k) →
      (∀ l, conn'.versionDependencies l = wConn.versionDependencies l) →
      index_metadata wKrate conn' = .ok wOut) :=
  deps_sorted_and_deterministic wKrate wConn wOut rfl

/-- C7: when the storage reads succeed, each version pairs with its record
in order, a version whose dependency bucket is empty yields a record whose
dependency list is the empty list (the field is present in every record by
construction), and a version whose raw feature mapping is empty yields an
empty legacy feature mapping and no extended mapping. -/
theorem empty_deps_empty_features (krate : Crate) (conn : Conn)
    (vs : List Version) (deps : List (Dependency × String))
    (hv : conn.allVersions krate = .ok vs)
    (hd : conn.versionDependencies (sortVersions vs) = .ok deps) :
    ∃ out, index_metadata krate conn = .ok out ∧
      List.Forall₂ (fun v rec =>
        (deps.filter (fun p => p.1.version_id == v.id) = [] → rec.deps = []) ∧
        ((v.features).getD [] = [] →
          rec.features = [] ∧ rec.features2 = none))
        (sortVersions vs) out := by
  refine ⟨_, index_metadata_eq_of krate conn vs deps hv hd, ?_⟩
  rw [List.forall₂_map_right_iff]
  rw [List.forall₂_same]
  intro v _
  constructor
  · intro hde
    simp [transformVersion, hde, sortDeps]
  · intro hfe
    simp [transformVersion, hfe, split_features]

/-- Witness for C7: the demo scenario, whose versions 0.1.0 and `garbage`
have no dependencies and an empty feature mapping. -/
theorem empty_deps_empty_features_witness :
    ∃ out, index_metadata wKrate wConn = .ok out ∧
      List.Forall₂ (fun v rec =>
        ([(wDep, "left-pad"), (wDepPlain, "serde")].filter
            (fun p => p.1.version_id == v.id) = [] → rec.deps = []) ∧
        ((v.features).getD [] = [] →
          rec.features = [] ∧ rec.features2 = none))
        (sortVersions [wV2, wV1, wVbad]) out :=
  empty_deps_empty_features wKrate wConn [wV2, wV1, wVbad]
    [(wDep, "left-pad"), (wDepPlain, "serde")] rfl rfl

/-- C9: when the storage reads succeed, every stored version — the sorted
list is a permutation of the stored list, so none is filtered out, yanked or
not — pairs with exactly one output record, whose `yanked` field is present
and equal to the version's stored flag. -/
theorem yanked_flag_preserved (krate : Crate) (conn : Conn)
    (vs : List Version) (deps : List (Dependency × String))
    (hv : conn.allVersions krate = .ok vs)
    (hd : conn.versionDependencies (sortVersions vs) = .ok deps) :
    ∃ out, index_metadata krate conn = .ok out ∧
      (sortVersions vs).Perm vs ∧
      List.Forall₂ (fun v rec =>
        rec.yanked = some v.yanked ∧ rec.vers = v.num)
        (sortVersions vs) out := by
  refine ⟨_, index_metadata_eq_of krate conn vs deps hv hd,
    sortVersions_perm vs, ?_⟩
  rw [List.forall₂_map_right_iff]
  rw [List.forall₂_same]
  intro v _
  exact ⟨rfl, rfl⟩

/-- Witness for C9: the demo scenario, whose version 0.2.0 is yanked. -/
theorem yanked_flag_preserved_witness :
    ∃ out, index_metadata wKrate wConn = .ok out ∧
      (sortVersions [wV2, wV1, wVbad]).Perm [wV2, wV1, wVbad] ∧
      List.Forall₂ (fun v rec =>
        rec.yanked = some v.yanked ∧ rec.vers = v.num)
        (sortVersions [wV2, wV1, wVbad]) out :=
  yanked_flag_preserved wKrate wConn [wV2, wV1, wVbad]
    [(wDep, "left-pad"), (wDepPlain, "serde")] rfl rfl

/-- C10: a version whose raw feature payload is absent or fails to decode is
transformed as if its feature mapping were empty — the run still succeeds
and the version's record carries an empty legacy map, no extended map and no
format-version tag. -/
theorem undecodable_features_default (krate : Crate) (conn : Conn)
    (vs : List Version) (deps : List (Dependency × String))
    (hv : conn.allVersions krate = .ok vs)
    (hd : conn.versionDependencies (sortVersions vs) = .ok deps) :
    ∃ out, index_metadata krate conn = .ok out ∧
      List.Forall₂ (fun v rec => v.features = none →
        rec.features = [] ∧ rec.features2 = none ∧ rec.v = none)
        (sortVersions vs) out := by
  refine ⟨_, index_metadata_eq_of krate conn vs deps hv hd, ?_⟩
  rw [List.forall₂_map_right_iff]
  rw [List.forall₂_same]
  intro v _ hf
  simp [transformVersion, hf, split_features]

/-- Witness for C10: the demo scenario, whose version `garbage` has an
undecodable feature payload. -/
theorem undecodable_features_default_witness :
    ∃ out, index_metadata wKrate wConn = .ok out ∧
      List.Forall₂ (fun v rec => v.features = none →
        rec.features = [] ∧ rec.features2 = none ∧ rec.v = none)
        (sortVersions [wV2, wV1, wVbad]) out :=
  undecodable_features_default wKrate wConn [wV2, wV1, wVbad]
    [(wDep, "left-pad"), (wDepPlain, "serde")] rfl rfl

/-- C4: a missing package and an existing package with zero versions both
yield the caller-visible result `Ok None`; the zero-version case emits
exactly one warning-level signal whose message names the package, and a
non-empty anomaly-signal list arises in no other case. -/
theorem not_found_and_zero_versions (enc : WireEncoder) (name : String)
    (conn : Conn) :
    (conn.byExactName name = .ok none →
      get_index_data enc name conn = (.ok none, [])) ∧
    (∀ krate deps, conn.byExactName name = .ok (some krate) →
      conn.allVersions krate = .ok [] →
      conn.versionDependencies (sortVersions []) = .ok deps →
      get_index_data enc name conn =
        (.ok none,
          [(Level.warning, "Crate `" ++ name ++ "` has no versions left")])) ∧
    ((get_index_data enc name conn).2 ≠ [] →
      ∃ krate, conn.byExactName name = .ok (some krate) ∧
        index_metadata krate conn = .ok []) := by
  refine ⟨?_, ?_, ?_⟩
  · intro hb
    unfold get_index_data
    rw [hb]
  · intro krate deps hb hv hd
    unfold get_index_data
    rw [hb]
    dsimp only
    rw [index_metadata_eq_of krate conn [] deps hv hd]
    rfl
  · intro hne
    unfold get_index_data at hne
    cases hb : conn.byExactName name with
    | error e => rw [hb] at hne; exact absurd rfl hne
    | ok o =>
      cases o with
      | none => rw [hb] at hne; exact absurd rfl hne
      | some krate =>
        rw [hb] at hne
        dsimp only at hne
        cases hm : index_metadata krate conn with
        | error e => rw [hm] at hne; exact absurd rfl hne
        | ok crates =>
          rw [hm] at hne
          dsimp only at hne
          cases crates with
          | nil => exact ⟨krate, rfl, hm⟩
          | cons c cs =>
            simp only [List.isEmpty_cons, Bool.false_eq_true, if_false] at hne
            cases hw : enc.writeCrates (c :: cs) with
            | error e => rw [hw] at hne; exact absurd rfl hne
            | ok bytes =>
              rw [hw] at hne
              dsimp only at hne
              cases hu : enc.fromUtf8 bytes with
              | none => rw [hu] at hne; exact absurd rfl hne
              | some s => rw [hu] at hne; exact absurd rfl hne

/-- Demo storage collaborator holding the demo package with zero
versions. -/
def wConnEmpty : Conn :=
  { byExactName := fun n => if n = "demo" then .ok (some wKrate) else .ok none
    allVersions := fun _ => .ok []
    versionDependencies := fun _ => .ok [] }

/-- Witness for C4: a lookup of a name for which no package exists, and a
lookup of a package with zero versions. -/
theorem not_found_and_zero_versions_witness :
    get_index_data wEnc "nope" wConn = (.ok none, []) ∧
    get_index_data wEnc "demo" wConnEmpty =
      (.ok none,
        [(Level.warning, "Crate `" ++ "demo" ++ "` has no versions left")]) :=
  ⟨(not_found_and_zero_versions wEnc "nope" wConn).1 rfl,
   (not_found_and_zero_versions wEnc "demo" wConnEmpty).2.1 wKrate [] rfl rfl rfl⟩

/-- C8: a failing package lookup, a failing version load and a failing
dependency load each propagate as a query error (never as a not-found
result); an absent package is the successful `Ok None` result; a
wire-encoder failure propagates as a serialization error and a text-decoding
failure as a decoding error, and every error outcome is distinct from the
not-found result. -/
theorem storage_error_propagation (enc : WireEncoder) (name : String)
    (conn : Conn) :
    (∀ e, conn.byExactName name = .error e →
      get_index_data enc name conn = (.error (.query e), [])) ∧
    (∀ krate e, conn.allVersions krate = .error e →
      index_metadata krate conn = .error e) ∧
    (∀ krate vs e, conn.allVersions krate = .ok vs →
      conn.versionDependencies (sortVersions vs) = .error e →
      index_metadata krate conn = .error e) ∧
    (∀ krate e, conn.byExactName name = .ok (some krate) →
      index_metadata krate conn = .error e →
      get_index_data enc name conn = (.error (.query e), [])) ∧
    (conn.byExactName name = .ok none →
      get_index_data enc name conn = (.ok none, [])) ∧
    (∀ krate out e, conn.byExactName name = .ok (some krate) →
      index_metadata krate conn = .ok out → out ≠ [] →
      enc.writeCrates out = .error e →
      get_index_data enc name conn = (.error (.serialization e), [])) ∧
    (∀ krate out bytes, conn.byExactName name = .ok (some krate) →
      index_metadata krate conn = .ok out → out ≠ [] →
      enc.writeCrates out = .ok bytes → enc.fromUtf8 bytes = none →
      get_index_data enc name conn = (.error .utf8Decode, [])) ∧
    (∀ err : IndexDataError, ∀ res : Option String,
      (Except.error err : Except IndexDataError (Option String)) ≠ .ok res) := by
  refine ⟨?_, ?_, ?_, ?_, ?_, ?_, ?_, ?_⟩
  · intro e hb
    unfold get_index_data
    rw [hb]
  · intro krate e hv
    unfold index_metadata
    rw [hv]
  · intro krate vs e hv hd
    unfold index_metadata
    rw [hv]
    dsimp only
    rw [hd]
  · intro krate e hb hm
    unfold get_index_data
    rw [hb]
    dsimp only
    rw [hm]
  · intro hb
    unfold get_index_data
    rw [hb]
  · intro krate out e hb hm hne hw
    unfold get_index_data
    rw [hb]
    dsimp only
    rw [hm]
    cases out with
    | nil => exact absurd rfl hne
    | cons c cs =>
      simp only [List.isEmpty_cons, Bool.false_eq_true, if_false]
      rw [hw]
  · intro krate out bytes hb hm hne hw hu
    unfold get_index_data
    rw [hb]
    dsimp only
    rw [hm]
    cases out with
    | nil => exact absurd rfl hne
    | cons c cs =>
      simp only [List.isEmpty_cons, Bool.false_eq_true, if_false]
      rw [hw]
      dsimp only
      rw [hu]
  · intro err res h
    exact Except.noConfusion h

/-- Witness for C8: a storage collaborator whose package lookup fails. -/
theorem storage_error_propagation_witness :
    get_index_data wEnc "demo"
      { byExactName := fun _ => .error "db down"
        allVersions := fun _ => .ok []
        versionDependencies := fun _ => .ok [] } =
      (.error (.query "db down"), []) :=
  (storage_error_propagation wEnc "demo"
    { byExactName := fun _ => .error "db down"
      allVersions := fun _ => .ok []
      versionDependencies := fun _ => .ok [] }).1 "db down" rfl

end CratesioIndexing
